import Mathlib

/-!
Verification development for `src/objects-tasks.js`.

The JavaScript source is shallowly embedded: plain objects with number values
become insertion-ordered association lists, the `Selector` class becomes a
structure, and each fragment-adding method becomes a function returning the
state of the receiver after the call together with the outcome of the call
(the returned copy, or the error thrown).  JavaScript exceptions become an
`Except` error value; the two thrown errors of the builder are distinguished
by which message the source throws.
-/

namespace ObjectsTasks

/-- A plain JS object with number values: insertion-ordered key/value entries,
keys distinct by construction in the source. -/
abbrev Obj := List (String × Int)

/-- Property read `o[k]`: the value at the first entry named `k`, if present. -/
def lookupKey (k : String) : Obj → Option Int
  | [] => none
  | (k1, v) :: rest => if k1 = k then some v else lookupKey k rest

/-- One entry step of `mergeObjects`: `result[key] = value` when the key is
absent (appends the entry at the end), `result[key] += value` when present. -/
def mergeEntry (k : String) (v : Int) : Obj → Obj
  | [] => [(k, v)]
  | (k1, v1) :: rest =>
    if k1 = k then (k1, v1 + v) :: rest else (k1, v1) :: mergeEntry k v rest

/-- Embedding of `mergeObjects` (source lines 36–49): fold every entry of every
input object into an initially empty result. -/
def mergeObjects (objects : List Obj) : Obj :=
  objects.foldl (fun result o => o.foldl (fun acc e => mergeEntry e.1 e.2 acc) result) []

/-- Pointwise comparison loop of `compareObjects`: the i-th entry of the first
object is compared with the i-th entry of the second, key and value. -/
def entriesEq : Obj → Obj → Bool
  | [], [] => true
  | e1 :: r1, e2 :: r2 => e1.1 = e2.1 && e1.2 = e2.2 && entriesEq r1 r2
  | _, _ => false

/-- Embedding of `compareObjects` (source lines 84–93): false when the entry
counts differ, otherwise positional comparison of the entry lists. -/
def compareObjects (o1 o2 : Obj) : Bool :=
  if o1.length ≠ o2.length then false else entriesEq o1 o2

/-- Embedding of the loop of `sellTickets` (source lines 166–196), with the
two cashbox counters (the entries at keys 25 and 50) as explicit arguments.
A bill other than 25, 50, 100 matches none of the `if` branches of the source and
the customer is skipped. -/
def sellTicketsAux (c25 c50 : Nat) : List Nat → Bool
  | [] => true
  | bill :: rest =>
    if bill = 25 then sellTicketsAux (c25 + 1) c50 rest
    else if bill = 50 then
      if 0 < c25 then sellTicketsAux (c25 - 1) (c50 + 1) rest else false
    else if bill = 100 then
      if 0 < c50 && 0 < c25 then sellTicketsAux (c25 - 1) (c50 - 1) rest
      else if 2 < c25 then sellTicketsAux (c25 - 3) c50 rest
      else false
    else sellTicketsAux c25 c50 rest

/-- Embedding of `sellTickets`: the cashbox starts empty. -/
def sellTickets (queue : List Nat) : Bool :=
  sellTicketsAux 0 0 queue

/-- Spec-side definition (refinement reference), following the words of the spec:
"there exists some way to give every customer correct change from the bills
collected so far" — exhaustive search over the change-giving choices.  A 25
needs no change; a 50 needs one 25 in change; a 100 needs 75 in change, paid
either as one 50 plus one 25 or as three 25s.  Bills outside 25/50/100 are not
part of the claimed domain and are deemed infeasible. -/
def changeFeasible (c25 c50 : Nat) : List Nat → Bool
  | [] => true
  | bill :: rest =>
    if bill = 25 then changeFeasible (c25 + 1) c50 rest
    else if bill = 50 then decide (0 < c25) && changeFeasible (c25 - 1) (c50 + 1) rest
    else if bill = 100 then
      (decide (0 < c50) && decide (0 < c25) && changeFeasible (c25 - 1) (c50 - 1) rest)
      || (decide (3 ≤ c25) && changeFeasible (c25 - 3) c50 rest)
    else false

/-! ## The CSS selector builder -/

/-- The six fragment categories, as pushed onto `this.order` by `checkOrder`. -/
inductive Category
  | element
  | id
  | cls
  | attr
  | pseudoClass
  | pseudoElement
  deriving DecidableEq, Repr

/-- The `orderMap` table inside `checkOrder` (source lines 406–413). -/
def orderMap : Category → Nat
  | .element => 1
  | .id => 2
  | .cls => 3
  | .attr => 4
  | .pseudoClass => 5
  | .pseudoElement => 6

/-- State of a `Selector` instance (source lines 393–403).  `cls` stands in
for the reserved word `class`. -/
structure Selector where
  elementName : Option String
  idName : Option String
  classes : List String
  attributes : List String
  pseudoClasses : List String
  pseudoElementName : Option String
  order : List Category
  deriving DecidableEq, Repr

/-- A freshly constructed `new Selector()`. -/
def Selector.init : Selector :=
  { elementName := none, idName := none, classes := [], attributes := [],
    pseudoClasses := [], pseudoElementName := none, order := [] }

/-- The two errors the builder throws, distinguished by message:
`duplicatePart` is "Element, id and pseudo-element should not occur more than
one time inside the selector"; `invalidOrder` is "Selector parts should be
arranged in the following order: ...". -/
inductive SelectorError
  | duplicatePart
  | invalidOrder
  deriving DecidableEq, Repr

/-- The guard of `checkOrder`: true when `this.order` is non-empty (a truthy
`last`) and the last recorded category outranks the new one. -/
def lastRankExceeds (s : Selector) (part : Category) : Bool :=
  match s.order.getLast? with
  | some last => orderMap part < orderMap last
  | none => false

/-- Embedding of `Selector.checkOrder` (source lines 405–423): throw on a rank
decrease, otherwise push the new category onto the `order` array OF THE
RECEIVER (the push happens on `this`, before any clone). -/
def checkOrder (s : Selector) (part : Category) : Except SelectorError Selector :=
  if lastRankExceeds s part then .error .invalidOrder
  else .ok { s with order := s.order ++ [part] }

/-- Embedding of `Selector.ensureSingle` (source lines 425–431). -/
def ensureSingle (value : Option String) : Except SelectorError Unit :=
  match value with
  | some _ => .error .duplicatePart
  | none => .ok ()

/-- Embedding of `Selector.clone` (source lines 478–488): a field-by-field
copy (array spreads become the same immutable list values). -/
def clone (s : Selector) : Selector :=
  { elementName := s.elementName, idName := s.idName, classes := s.classes,
    attributes := s.attributes, pseudoClasses := s.pseudoClasses,
    pseudoElementName := s.pseudoElementName, order := s.order }

/-- One fragment-adding call, tagged by method and argument.  `cls` models the
method named `class` in the source. -/
inductive Call
  | element (value : String)
  | id (value : String)
  | cls (value : String)
  | attr (value : String)
  | pseudoClass (value : String)
  | pseudoElement (value : String)
  deriving DecidableEq, Repr

/-- The category a call adds. -/
def Call.category : Call → Category
  | .element _ => .element
  | .id _ => .id
  | .cls _ => .cls
  | .attr _ => .attr
  | .pseudoClass _ => .pseudoClass
  | .pseudoElement _ => .pseudoElement

/-- The string argument of a call. -/
def Call.value : Call → String
  | .element v => v
  | .id v => v
  | .cls v => v
  | .attr v => v
  | .pseudoClass v => v
  | .pseudoElement v => v

/-- Embedding of the six fragment-adding methods (source lines 433–476).
The result is the pair (state of the receiver after the call, outcome): a
thrown error leaves the receiver as it was, while a successful call has
already pushed the new category onto the `order` of the receiver inside
`checkOrder` and returns a clone of that mutated receiver with the fragment
value applied. -/
def applyCall (c : Call) (s : Selector) : Selector × Except SelectorError Selector :=
  match c with
  | .element v =>
    match ensureSingle s.elementName with
    | .error e => (s, .error e)
    | .ok _ =>
      match checkOrder s .element with
      | .error e => (s, .error e)
      | .ok s1 => (s1, .ok { clone s1 with elementName := some v })
  | .id v =>
    match ensureSingle s.idName with
    | .error e => (s, .error e)
    | .ok _ =>
      match checkOrder s .id with
      | .error e => (s, .error e)
      | .ok s1 => (s1, .ok { clone s1 with idName := some v })
  | .cls v =>
    match checkOrder s .cls with
    | .error e => (s, .error e)
    | .ok s1 => (s1, .ok { clone s1 with classes := (clone s1).classes ++ [v] })
  | .attr v =>
    match checkOrder s .attr with
    | .error e => (s, .error e)
    | .ok s1 => (s1, .ok { clone s1 with attributes := (clone s1).attributes ++ [v] })
  | .pseudoClass v =>
    match checkOrder s .pseudoClass with
    | .error e => (s, .error e)
    | .ok s1 => (s1, .ok { clone s1 with pseudoClasses := (clone s1).pseudoClasses ++ [v] })
  | .pseudoElement v =>
    match ensureSingle s.pseudoElementName with
    | .error e => (s, .error e)
    | .ok _ =>
      match checkOrder s .pseudoElement with
      | .error e => (s, .error e)
      | .ok s1 => (s1, .ok { clone s1 with pseudoElementName := some v })

/-- A linear chain of calls: each subsequent call is made on the selector
returned by the previous one (the usual fluent style `a.b().c()`). -/
def runChain (s : Selector) : List Call → Except SelectorError Selector
  | [] => .ok s
  | c :: rest =>
    match (applyCall c s).2 with
    | .error e => .error e
    | .ok r => runChain r rest

/-- A chain started through the façade `cssSelectorBuilder`: its six entry
points each call the method on `new Selector()`. -/
def buildChain (cs : List Call) : Except SelectorError Selector :=
  runChain Selector.init cs

/-- Embedding of `Selector.stringify` (source lines 490–508).  The `id` and
`pseudo-element` parts sit under JS truthiness tests, so an empty-string name
there contributes nothing; the element part renders the element name
bare (an absent or empty name both give the empty string). -/
def Selector.stringify (s : Selector) : String :=
  (s.elementName.getD "")
    ++ (match s.idName with
        | some v => if v = "" then "" else "#" ++ v
        | none => "")
    ++ String.join (s.classes.map (fun c => "." ++ c))
    ++ String.join (s.attributes.map (fun a => "[" ++ a ++ "]"))
    ++ String.join (s.pseudoClasses.map (fun p => ":" ++ p))
    ++ (match s.pseudoElementName with
        | some v => if v = "" then "" else "::" ++ v
        | none => "")

/-- A selector-like value: a `Selector`, or a `CombinedSelector` node holding
two selector-like children and a combinator string (source lines 511–523). -/
inductive SelectorLike
  | single (s : Selector)
  | combined (left : SelectorLike) (combinator : String) (right : SelectorLike)

/-- Duck-typed `stringify`: `combinedStringify` renders
`` `${s1.stringify()} ${combinator} ${s2.stringify()}` ``. -/
def SelectorLike.stringify : SelectorLike → String
  | .single s => s.stringify
  | .combined l c r => l.stringify ++ " " ++ c ++ " " ++ r.stringify

/-- Embedding of `cssSelectorBuilder.combine` (source lines 550–552): wraps the
two children with no validation of the combinator. -/
def combine (left : SelectorLike) (combinator : String) (right : SelectorLike) : SelectorLike :=
  .combined left combinator right

/-! ### Spec-side helpers for the serialization claims -/

/-- The list view of an optional field: empty or a singleton. -/
def optList : Option String → List String
  | none => []
  | some v => [v]

/-- The values of the calls of one category in a chain, in call order. -/
def catVals (cat : Category) (cs : List Call) : List String :=
  cs.filterMap (fun c => if c.category = cat then some c.value else none)

/-- Spec-side rendering of the fragments of a chain in the fixed serialization
order — element bare, id with `#`, classes with `.`, attributes in brackets,
pseudo-classes with `:`, pseudo-element with `::` — amended with the JS
truthiness caveat: an empty-string id or pseudo-element contributes nothing. -/
def specRender (cs : List Call) : String :=
  String.join (catVals .element cs)
    ++ String.join ((catVals .id cs).map (fun v => if v = "" then "" else "#" ++ v))
    ++ String.join ((catVals .cls cs).map (fun v => "." ++ v))
    ++ String.join ((catVals .attr cs).map (fun v => "[" ++ v ++ "]"))
    ++ String.join ((catVals .pseudoClass cs).map (fun v => ":" ++ v))
    ++ String.join ((catVals .pseudoElement cs).map (fun v => if v = "" then "" else "::" ++ v))

/-- Whether a call would trip `ensureSingle` on this receiver: it is an
`element`, `id` or `pseudoElement` call whose field is already set. -/
def blocksDuplicate (c : Call) (s : Selector) : Bool :=
  match c with
  | .element _ => s.elementName.isSome
  | .id _ => s.idName.isSome
  | .pseudoElement _ => s.pseudoElementName.isSome
  | _ => false

/-- The selector a successful call returns, as a record update of the
receiver: the new fragment value applied and the category appended to the
order history.  `applyCall_spec` proves the embedded methods produce exactly
this on success. -/
def callEffect (c : Call) (s : Selector) : Selector :=
  match c with
  | .element v => { s with elementName := some v, order := s.order ++ [.element] }
  | .id v => { s with idName := some v, order := s.order ++ [.id] }
  | .cls v => { s with classes := s.classes ++ [v], order := s.order ++ [.cls] }
  | .attr v => { s with attributes := s.attributes ++ [v], order := s.order ++ [.attr] }
  | .pseudoClass v => { s with pseudoClasses := s.pseudoClasses ++ [v], order := s.order ++ [.pseudoClass] }
  | .pseudoElement v => { s with pseudoElementName := some v, order := s.order ++ [.pseudoElement] }

/-- Helper for the merge specification: add a list of further values for one
key to an optional already-present value. -/
def optAdd (o : Option Int) (vs : List Int) : Option Int :=
  match o, vs with
  | none, [] => none
  | none, vs => some vs.sum
  | some w, vs => some (w + vs.sum)

/-- Spec-side value of key `k` after a merge: absent when no input object
holds `k`, otherwise the sum of the values of `k` across the inputs in input
order (a key held by exactly one input keeps that value). -/
def dupKeySum (objects : List Obj) (k : String) : Option Int :=
  match objects.filterMap (lookupKey k) with
  | [] => none
  | vs => some vs.sum

/-! ### Concrete selectors used in closed statements -/

/-- The selector returned by the façade call `element("a")`. -/
def selA : Selector :=
  { Selector.init with elementName := some "a", order := [.element] }

/-- The copy that `selA.class("x")` returns. -/
def selAx : Selector :=
  { selA with classes := ["x"], order := [.element, .cls] }

/-- The copy that `selA.id("y")` returns. -/
def selAy : Selector :=
  { selA with idName := some "y", order := [.element, .id] }

/-- The selector built by `element("a").id("b")`. -/
def selAB : Selector :=
  { Selector.init with
      elementName := some "a", idName := some "b", order := [.element, .id] }

/-- The selector returned by the façade call `id("x")`. -/
def selX : Selector :=
  { Selector.init with idName := some "x", order := [.id] }

/-- The selector built by `element("div").id("main")`. -/
def selDivMain : Selector :=
  { Selector.init with
      elementName := some "div", idName := some "main", order := [.element, .id] }

/-- The selector returned by the façade call `id("")`. -/
def selIdEmpty : Selector :=
  { Selector.init with idName := some "", order := [.id] }

/-- The selector returned by the façade call `pseudoElement("")`. -/
def selPeEmpty : Selector :=
  { Selector.init with pseudoElementName := some "", order := [.pseudoElement] }

/-- The selector built by `id("main").class("container").class("editable")`. -/
def selMainCE : Selector :=
  { Selector.init with
      idName := some "main", classes := ["container", "editable"],
      order := [.id, .cls, .cls] }

/-- The selector returned by the façade call `element("p")`. -/
def selP : Selector :=
  { Selector.init with elementName := some "p", order := [.element] }

/-- The selector returned by the façade call `element("h1")`. -/
def selH : Selector :=
  { Selector.init with elementName := some "h1", order := [.element] }

end ObjectsTasks

namespace ObjectsTasks

/-! ## Characterization of a single fragment-adding call -/

/-- A fragment-adding call first trips on an already-set singleton field
(throwing the duplicate error), then on a rank decrease against the last
recorded category (throwing the order error), and otherwise mutates the
receiver by pushing the category and returns `callEffect`. -/
theorem applyCall_spec (c : Call) (s : Selector) :
    applyCall c s =
      if blocksDuplicate c s then (s, Except.error SelectorError.duplicatePart)
      else if lastRankExceeds s c.category then (s, Except.error SelectorError.invalidOrder)
      else ({ s with order := s.order ++ [c.category] }, Except.ok (callEffect c s)) := by
  cases c with
  | element v =>
    cases h : s.elementName with
    | some w => simp [applyCall, blocksDuplicate, h, ensureSingle]
    | none =>
      cases h2 : lastRankExceeds s Category.element with
      | true =>
        simp [applyCall, blocksDuplicate, h, ensureSingle, checkOrder, h2, Call.category]
      | false =>
        simp [applyCall, blocksDuplicate, h, ensureSingle, checkOrder, h2, Call.category,
          callEffect, clone]
  | id v =>
    cases h : s.idName with
    | some w => simp [applyCall, blocksDuplicate, h, ensureSingle]
    | none =>
      cases h2 : lastRankExceeds s Category.id with
      | true =>
        simp [applyCall, blocksDuplicate, h, ensureSingle, checkOrder, h2, Call.category]
      | false =>
        simp [applyCall, blocksDuplicate, h, ensureSingle, checkOrder, h2, Call.category,
          callEffect, clone]
  | cls v =>
    cases h2 : lastRankExceeds s Category.cls with
    | true => simp [applyCall, blocksDuplicate, checkOrder, h2, Call.category]
    | false =>
      simp [applyCall, blocksDuplicate, checkOrder, h2, Call.category, callEffect, clone]
  | attr v =>
    cases h2 : lastRankExceeds s Category.attr with
    | true => simp [applyCall, blocksDuplicate, checkOrder, h2, Call.category]
    | false =>
      simp [applyCall, blocksDuplicate, checkOrder, h2, Call.category, callEffect, clone]
  | pseudoClass v =>
    cases h2 : lastRankExceeds s Category.pseudoClass with
    | true => simp [applyCall, blocksDuplicate, checkOrder, h2, Call.category]
    | false =>
      simp [applyCall, blocksDuplicate, checkOrder, h2, Call.category, callEffect, clone]
  | pseudoElement v =>
    cases h : s.pseudoElementName with
    | some w => simp [applyCall, blocksDuplicate, h, ensureSingle]
    | none =>
      cases h2 : lastRankExceeds s Category.pseudoElement with
      | true =>
        simp [applyCall, blocksDuplicate, h, ensureSingle, checkOrder, h2, Call.category]
      | false =>
        simp [applyCall, blocksDuplicate, h, ensureSingle, checkOrder, h2, Call.category,
          callEffect, clone]

/-- Outcome component of `applyCall_spec`. -/
theorem applyCall_snd (c : Call) (s : Selector) :
    (applyCall c s).2 =
      if blocksDuplicate c s then Except.error SelectorError.duplicatePart
      else if lastRankExceeds s c.category then Except.error SelectorError.invalidOrder
      else Except.ok (callEffect c s) := by
  rw [applyCall_spec]
  split_ifs <;> rfl

/-- Receiver component of `applyCall_spec`. -/
theorem applyCall_fst (c : Call) (s : Selector) :
    (applyCall c s).1 =
      if blocksDuplicate c s then s
      else if lastRankExceeds s c.category then s
      else { s with order := s.order ++ [c.category] } := by
  rw [applyCall_spec]
  split_ifs <;> rfl

end ObjectsTasks

namespace ObjectsTasks

/-! ## Claim C1 -/

/-- C1 (code bug): a successful fragment-adding call does NOT leave the
receiver unchanged — `checkOrder` pushes the new category onto the `order` of
the receiver itself before the clone is made.  Concretely: for the selector
`s` returned by the façade call `element("a")`, `s.class("x")` succeeds but
appends `cls` to `s.order`; afterwards the individually valid call
`s.id("y")` — which succeeds on the original `s` — throws the ordering error,
so fan-out independence fails. -/
theorem selector_receiver_mutation_bug :
    buildChain [Call.element "a"] = Except.ok selA ∧
    (applyCall (Call.cls "x") selA).2 = Except.ok selAx ∧
    (applyCall (Call.cls "x") selA).1 ≠ selA ∧
    ((applyCall (Call.cls "x") selA).1).order = [Category.element, Category.cls] ∧
    (applyCall (Call.id "y") selA).2 = Except.ok selAy ∧
    (applyCall (Call.id "y") ((applyCall (Call.cls "x") selA).1)).2 =
      Except.error SelectorError.invalidOrder :=
  ⟨rfl, rfl, by decide, rfl, rfl, rfl⟩

/-! ## Claim C5 -/

/-- C5: `combine` concatenates the serialized children around the combinator
with exactly one space on each side, with no validation of the combinator; a
space combinator yields the two extra separating spaces verbatim. -/
theorem combine_stringify_passthrough :
    ∀ (a b : SelectorLike) (c : String),
      (combine a c b).stringify = a.stringify ++ " " ++ c ++ " " ++ b.stringify ∧
      (combine a " " b).stringify = a.stringify ++ " " ++ " " ++ " " ++ b.stringify :=
  fun _ _ _ => ⟨rfl, rfl⟩

/-! ## Claim C6 -/

/-- C6: a fragment-adding call that fails with either builder error is atomic:
the receiver (all six fragment fields and the order history) is exactly as it
was before the call. -/
theorem failed_call_atomic (c : Call) (s : Selector) (e : SelectorError)
    (h : (applyCall c s).2 = Except.error e) :
    (applyCall c s).1 = s := by
  rw [applyCall_snd] at h
  rw [applyCall_fst]
  split_ifs at h ⊢ <;> simp_all

/-- Witness for C6: `element("q")` on the selector built by `element("p")`
fails with the duplicate error and leaves the receiver untouched. -/
theorem failed_call_atomic_witness :
    (applyCall (Call.element "q") selP).2 = Except.error SelectorError.duplicatePart ∧
    (applyCall (Call.element "q") selP).1 = selP :=
  ⟨rfl, failed_call_atomic (Call.element "q") selP SelectorError.duplicatePart rfl⟩

/-! ## Claim C7 -/

/-- C7: after a successful fragment-adding call the serialized output of the
receiver is unchanged (the call only mutates the order history of the
receiver, which `stringify` never reads). -/
theorem stringify_unchanged_after_success (c : Call) (s : Selector) (r : Selector)
    (h : (applyCall c s).2 = Except.ok r) :
    Selector.stringify (applyCall c s).1 = Selector.stringify s := by
  rw [applyCall_snd] at h
  rw [applyCall_fst]
  split_ifs at h ⊢
  simp_all [Selector.stringify]

/-- Witness for C7: adding `pseudoClass("hover")` to the selector built by
`element("h1")` succeeds and leaves the serialization of the receiver equal
to before. -/
theorem stringify_unchanged_after_success_witness :
    (applyCall (Call.pseudoClass "hover") selH).2 =
      Except.ok { selH with pseudoClasses := ["hover"], order := [.element, .pseudoClass] } ∧
    Selector.stringify (applyCall (Call.pseudoClass "hover") selH).1 =
      Selector.stringify selH :=
  ⟨rfl, stringify_unchanged_after_success (Call.pseudoClass "hover") selH
    { selH with pseudoClasses := ["hover"], order := [.element, .pseudoClass] } rfl⟩

end ObjectsTasks

namespace ObjectsTasks

/-! ## Field accounting for successful chains -/

/-- Unfolding lemma for `catVals` on a cons. -/
theorem catVals_cons (cat : Category) (c : Call) (rest : List Call) :
    catVals cat (c :: rest) =
      (if c.category = cat then [c.value] else []) ++ catVals cat rest := by
  by_cases h : c.category = cat
  · simp [catVals, List.filterMap_cons, h]
  · simp [catVals, List.filterMap_cons, h]

/-- Each field of the selector produced by a successful chain of calls is the
corresponding field of the start selector extended by the values of the calls
of that category, in call order; the order history gains every category. -/
theorem runChain_fields (cs : List Call) : ∀ (s t : Selector),
    runChain s cs = Except.ok t →
    optList t.elementName = optList s.elementName ++ catVals .element cs ∧
    optList t.idName = optList s.idName ++ catVals .id cs ∧
    t.classes = s.classes ++ catVals .cls cs ∧
    t.attributes = s.attributes ++ catVals .attr cs ∧
    t.pseudoClasses = s.pseudoClasses ++ catVals .pseudoClass cs ∧
    optList t.pseudoElementName = optList s.pseudoElementName ++ catVals .pseudoElement cs ∧
    t.order = s.order ++ cs.map Call.category := by
  induction cs with
  | nil =>
    intro s t h
    simp only [runChain] at h
    cases h
    simp [catVals]
  | cons c rest ih =>
    intro s t h
    simp only [runChain] at h
    cases hc : (applyCall c s).2 with
    | error e => rw [hc] at h; exact absurd h (by simp)
    | ok r =>
      rw [hc] at h
      dsimp only at h
      rw [applyCall_snd] at hc
      split_ifs at hc with hdup hord
      have hr : callEffect c s = r := by simpa using hc
      subst hr
      obtain ⟨e1, e2, e3, e4, e5, e6, e7⟩ := ih (callEffect c s) t h
      clear ih h hc hord
      cases c with
      | element v =>
        have he : s.elementName = none := by
          cases hse : s.elementName with
          | none => rfl
          | some w => exact absurd (by simp [blocksDuplicate, hse]) hdup
        dsimp only [callEffect] at e1 e2 e3 e4 e5 e6 e7
        refine ⟨?_, ?_, ?_, ?_, ?_, ?_, ?_⟩ <;>
          simp only [e1, e2, e3, e4, e5, e6, e7, he, catVals_cons] <;>
          simp [Call.category, Call.value, optList]
      | id v =>
        have hi : s.idName = none := by
          cases hsi : s.idName with
          | none => rfl
          | some w => exact absurd (by simp [blocksDuplicate, hsi]) hdup
        dsimp only [callEffect] at e1 e2 e3 e4 e5 e6 e7
        refine ⟨?_, ?_, ?_, ?_, ?_, ?_, ?_⟩ <;>
          simp only [e1, e2, e3, e4, e5, e6, e7, hi, catVals_cons] <;>
          simp [Call.category, Call.value, optList]
      | cls v =>
        dsimp only [callEffect] at e1 e2 e3 e4 e5 e6 e7
        refine ⟨?_, ?_, ?_, ?_, ?_, ?_, ?_⟩ <;>
          simp only [e1, e2, e3, e4, e5, e6, e7, catVals_cons] <;>
          simp [Call.category, Call.value, optList]
      | attr v =>
        dsimp only [callEffect] at e1 e2 e3 e4 e5 e6 e7
        refine ⟨?_, ?_, ?_, ?_, ?_, ?_, ?_⟩ <;>
          simp only [e1, e2, e3, e4, e5, e6, e7, catVals_cons] <;>
          simp [Call.category, Call.value, optList]
      | pseudoClass v =>
        dsimp only [callEffect] at e1 e2 e3 e4 e5 e6 e7
        refine ⟨?_, ?_, ?_, ?_, ?_, ?_, ?_⟩ <;>
          simp only [e1, e2, e3, e4, e5, e6, e7, catVals_cons] <;>
          simp [Call.category, Call.value, optList]
      | pseudoElement v =>
        have hp : s.pseudoElementName = none := by
          cases hsp : s.pseudoElementName with
          | none => rfl
          | some w => exact absurd (by simp [blocksDuplicate, hsp]) hdup
        dsimp only [callEffect] at e1 e2 e3 e4 e5 e6 e7
        refine ⟨?_, ?_, ?_, ?_, ?_, ?_, ?_⟩ <;>
          simp only [e1, e2, e3, e4, e5, e6, e7, hp, catVals_cons] <;>
          simp [Call.category, Call.value, optList]

end ObjectsTasks

namespace ObjectsTasks

/-! ## Claim C2 -/

/-- C2 counterexample: in the lineage `element("a").id("b")` the further call
`element("c")` has a strict rank decrease (element rank 1 after id rank 2),
yet it raises the DUPLICATE error, not the ordering error, because the
duplicate check runs first. -/
theorem rank_decrease_error_kind_cex :
    buildChain [Call.element "a", Call.id "b"] = Except.ok selAB ∧
    selAB.order.getLast? = some Category.id ∧
    orderMap (Call.element "c").category < orderMap Category.id ∧
    (applyCall (Call.element "c") selAB).2 = Except.error SelectorError.duplicatePart ∧
    SelectorError.duplicatePart ≠ SelectorError.invalidOrder :=
  ⟨rfl, rfl, by decide, rfl, by decide⟩

/-- C2 (amended): on a selector with a non-empty order history, a call whose
rank is strictly lower than the rank of the last recorded category fails —
with the ordering error unless the call is itself a duplicate
element/id/pseudoElement (whose check runs first and yields the duplicate
error) — and a call of equal or higher rank that is not such a duplicate
passes the ordering check and succeeds. -/
theorem order_check_amended (s : Selector) (c : Call) (p : Category)
    (hp : s.order.getLast? = some p) :
    (orderMap c.category < orderMap p →
      (applyCall c s).2 =
        Except.error
          (if blocksDuplicate c s then SelectorError.duplicatePart
           else SelectorError.invalidOrder)) ∧
    (orderMap p ≤ orderMap c.category → blocksDuplicate c s = false →
      (applyCall c s).2 = Except.ok (callEffect c s)) := by
  constructor
  · intro hlt
    rw [applyCall_snd]
    by_cases hd : blocksDuplicate c s
    · simp [hd]
    · have hl : lastRankExceeds s c.category = true := by
        simp [lastRankExceeds, hp, hlt]
      simp [hd, hl]
  · intro hge hd
    have hl : lastRankExceeds s c.category = false := by
      simp [lastRankExceeds, hp]
      omega
    rw [applyCall_snd, hd, hl]
    simp

/-- Witness for C2 (amended): `id("x").element("div")` — a strict rank
decrease with no duplicate — raises the ordering error, matching Scenario 4
of the spec. -/
theorem order_check_amended_witness :
    selX.order.getLast? = some Category.id ∧
    orderMap (Call.element "div").category < orderMap Category.id ∧
    (applyCall (Call.element "div") selX).2 = Except.error SelectorError.invalidOrder :=
  ⟨rfl, by decide,
    (order_check_amended selX (Call.element "div") Category.id rfl).1 (by decide)⟩

/-! ## Claim C3 -/

/-- C3: in any lineage built from the façade, a second `element`, `id`, or
`pseudoElement` call fails with the duplicate error — even when the ordering
check would also reject it, because the duplicate check runs first — and the
receiver is returned untouched (no copy observable). -/
theorem duplicate_part_second_call (cs : List Call) (s : Selector) (v : String)
    (h : buildChain cs = Except.ok s) :
    ((∃ w, Call.element w ∈ cs) →
      applyCall (Call.element v) s = (s, Except.error SelectorError.duplicatePart)) ∧
    ((∃ w, Call.id w ∈ cs) →
      applyCall (Call.id v) s = (s, Except.error SelectorError.duplicatePart)) ∧
    ((∃ w, Call.pseudoElement w ∈ cs) →
      applyCall (Call.pseudoElement v) s = (s, Except.error SelectorError.duplicatePart)) := by
  obtain ⟨e1, e2, e3, e4, e5, e6, e7⟩ := runChain_fields cs Selector.init s h
  refine ⟨?_, ?_, ?_⟩
  · rintro ⟨w, hw⟩
    have hmem : w ∈ catVals .element cs := by
      simp only [catVals, List.mem_filterMap]
      exact ⟨Call.element w, hw, by simp [Call.category, Call.value]⟩
    have hsome : s.elementName.isSome = true := by
      cases hse : s.elementName with
      | none => rw [hse] at e1; simp [optList, Selector.init] at e1; simp [e1] at hmem
      | some u => rfl
    rw [applyCall_spec]
    simp [blocksDuplicate, hsome]
  · rintro ⟨w, hw⟩
    have hmem : w ∈ catVals .id cs := by
      simp only [catVals, List.mem_filterMap]
      exact ⟨Call.id w, hw, by simp [Call.category, Call.value]⟩
    have hsome : s.idName.isSome = true := by
      cases hse : s.idName with
      | none => rw [hse] at e2; simp [optList, Selector.init] at e2; simp [e2] at hmem
      | some u => rfl
    rw [applyCall_spec]
    simp [blocksDuplicate, hsome]
  · rintro ⟨w, hw⟩
    have hmem : w ∈ catVals .pseudoElement cs := by
      simp only [catVals, List.mem_filterMap]
      exact ⟨Call.pseudoElement w, hw, by simp [Call.category, Call.value]⟩
    have hsome : s.pseudoElementName.isSome = true := by
      cases hse : s.pseudoElementName with
      | none => rw [hse] at e6; simp [optList, Selector.init] at e6; simp [e6] at hmem
      | some u => rfl
    rw [applyCall_spec]
    simp [blocksDuplicate, hsome]

/-- Witness for C3: after `element("div").id("main")`, the call
`element("span")` raises the duplicate error and the receiver is unchanged
(Scenario 3 of the spec). -/
theorem duplicate_part_second_call_witness :
    buildChain [Call.element "div", Call.id "main"] = Except.ok selDivMain ∧
    applyCall (Call.element "span") selDivMain =
      (selDivMain, Except.error SelectorError.duplicatePart) :=
  ⟨rfl,
    (duplicate_part_second_call [Call.element "div", Call.id "main"] selDivMain "span"
      rfl).1 ⟨"div", by decide⟩⟩

end ObjectsTasks

namespace ObjectsTasks

/-! ## Claim C4 -/

/-- Evaluation of `optList` on an absent field. -/
theorem optList_none : optList none = [] := rfl

/-- `stringify` written with each optional part as a joined mapped list. -/
theorem stringify_eq_parts (t : Selector) :
    Selector.stringify t =
      String.join (optList t.elementName)
        ++ String.join ((optList t.idName).map (fun v => if v = "" then "" else "#" ++ v))
        ++ String.join (t.classes.map (fun c => "." ++ c))
        ++ String.join (t.attributes.map (fun a => "[" ++ a ++ "]"))
        ++ String.join (t.pseudoClasses.map (fun p => ":" ++ p))
        ++ String.join ((optList t.pseudoElementName).map
            (fun v => if v = "" then "" else "::" ++ v)) := by
  cases he : t.elementName <;> cases hi : t.idName <;> cases hp : t.pseudoElementName <;>
    simp [Selector.stringify, optList, String.join, he, hi, hp]

/-- C4 counterexample: the legal façade calls `id("")` and `pseudoElement("")`
serialize to the empty string — the `#` and `::` prefixes are dropped by the
JS truthiness test — instead of the "#" and "::" the fixed-order
concatenation of the claim prescribes. -/
theorem stringify_empty_name_cex :
    buildChain [Call.id ""] = Except.ok selIdEmpty ∧
    Selector.stringify selIdEmpty = "" ∧
    ("" : String) ≠ "#" ∧
    buildChain [Call.pseudoElement ""] = Except.ok selPeEmpty ∧
    Selector.stringify selPeEmpty = "" ∧
    ("" : String) ≠ "::" :=
  ⟨rfl, by decide, by decide, rfl, by decide, by decide⟩

/-- C4 (amended): the selector built by any successful façade chain
serializes to the fixed-order concatenation — element bare, id with `#`,
classes with `.` in insertion order, attributes in `[` `]` in insertion
order, pseudo-classes with `:` in insertion order, pseudo-element with `::`,
absent fields contributing nothing — regardless of the order the fragments
were added, except that an empty-string id or pseudo-element also contributes
nothing. -/
theorem stringify_fixed_order (cs : List Call) (t : Selector)
    (h : buildChain cs = Except.ok t) :
    Selector.stringify t = specRender cs := by
  obtain ⟨e1, e2, e3, e4, e5, e6, e7⟩ := runChain_fields cs Selector.init t h
  simp only [Selector.init, optList_none, List.nil_append] at e1 e2 e3 e4 e5 e6
  rw [stringify_eq_parts, e1, e2, e3, e4, e5, e6, specRender]

/-- Witness for C4: `id("main").class("container").class("editable")`
serializes to `#main.container.editable` (Scenario 1 of the spec), matching
the fixed-order rendering of its fragments. -/
theorem stringify_fixed_order_witness :
    buildChain [Call.id "main", Call.cls "container", Call.cls "editable"] =
      Except.ok selMainCE ∧
    Selector.stringify selMainCE =
      specRender [Call.id "main", Call.cls "container", Call.cls "editable"] ∧
    Selector.stringify selMainCE = "#main.container.editable" :=
  ⟨rfl,
    stringify_fixed_order [Call.id "main", Call.cls "container", Call.cls "editable"]
      selMainCE rfl,
    by decide⟩

end ObjectsTasks

namespace ObjectsTasks

/-! ## Claim C9 -/

/-- The comparison loop is exactly positional list equality. -/
theorem entriesEq_iff : ∀ (o1 o2 : Obj), entriesEq o1 o2 = true ↔ o1 = o2 := by
  intro o1
  induction o1 with
  | nil => intro o2; cases o2 <;> simp [entriesEq]
  | cons e r ih =>
    intro o2
    cases o2 with
    | nil => simp [entriesEq]
    | cons e2 r2 => simp [entriesEq, ih r2, Prod.ext_iff, and_assoc]

/-- C9: `compareObjects` compares entries positionally, so it returns true
exactly when the ordered key sequences and corresponding values coincide, and
two objects holding the same key/value pairs in different insertion orders
compare as unequal. -/
theorem compareObjects_order_sensitive :
    (∀ (o1 o2 : Obj), compareObjects o1 o2 = true ↔ o1 = o2) ∧
    [(("a" : String), (1 : Int)), ("b", 2)].Perm [("b", 2), ("a", 1)] ∧
    compareObjects [("a", 1), ("b", 2)] [("b", 2), ("a", 1)] = false := by
  refine ⟨?_, by decide, by decide⟩
  intro o1 o2
  by_cases hl : o1.length = o2.length
  · simp [compareObjects, hl, entriesEq_iff]
  · simp only [compareObjects, ne_eq, hl, not_false_eq_true, if_true]
    constructor
    · intro h; exact absurd h (by simp)
    · intro h; exact absurd (congrArg List.length h) hl

/-! ## Claim C8 -/

/-- Looking a key up after one `mergeEntry` step: the inserted key is set or
summed, every other key is untouched. -/
theorem lookupKey_mergeEntry (k k2 : String) (v : Int) : ∀ (r : Obj),
    lookupKey k (mergeEntry k2 v r) =
      if k2 = k then
        match lookupKey k r with
        | none => some v
        | some w => some (w + v)
      else lookupKey k r := by
  intro r
  induction r with
  | nil => by_cases h : k2 = k <;> simp [mergeEntry, lookupKey, h]
  | cons e rest ih =>
    obtain ⟨k1, v1⟩ := e
    by_cases h1 : k1 = k2
    · subst h1
      by_cases h2 : k1 = k
      · subst h2; simp [mergeEntry, lookupKey]
      · simp [mergeEntry, lookupKey, h2]
    · by_cases h2 : k1 = k
      · subst h2
        have h3 : ¬(k2 = k1) := fun h => h1 h.symm
        simp [mergeEntry, lookupKey, h1, h3]
      · simp [mergeEntry, lookupKey, h1, h2, ih]

/-- `optAdd` with nothing further to add. -/
theorem optAdd_nil (o : Option Int) : optAdd o [] = o := by
  cases o <;> simp [optAdd]

/-- Folding the entries of one object into an accumulator adds, per key, the
values of all its entries at that key. -/
theorem lookupKey_foldl_merge : ∀ (entries : List (String × Int)) (acc : Obj) (k : String),
    lookupKey k (entries.foldl (fun r e => mergeEntry e.1 e.2 r) acc) =
      optAdd (lookupKey k acc) ((entries.filter (fun e => e.1 = k)).map Prod.snd) := by
  intro entries
  induction entries with
  | nil => intro acc k; simp [optAdd_nil]
  | cons e rest ih =>
    intro acc k
    obtain ⟨ke, ve⟩ := e
    simp only [List.foldl_cons]
    rw [ih, lookupKey_mergeEntry]
    by_cases h : ke = k
    · subst h
      rw [if_pos rfl]
      cases hacc : lookupKey ke acc <;>
        simp [optAdd, List.filter_cons, List.sum_cons, add_assoc, hacc]
    · rw [if_neg h]
      simp [List.filter_cons, h]

/-- The nested fold of `mergeObjects` is the fold over all entries of all
objects in order. -/
theorem merge_foldl_flatten : ∀ (objects : List Obj) (acc : Obj),
    objects.foldl (fun result o => o.foldl (fun a e => mergeEntry e.1 e.2 a) result) acc =
      objects.flatten.foldl (fun a e => mergeEntry e.1 e.2 a) acc := by
  intro objects
  induction objects with
  | nil => intro acc; simp
  | cons o rest ih => intro acc; simp [List.flatten_cons, List.foldl_append, ih]

/-- For an object with distinct keys, the values of its entries at key `k`
are exactly the looked-up value, if any. -/
theorem filter_map_eq_toList : ∀ (o : Obj), (o.map Prod.fst).Nodup →
    ∀ (k : String), (o.filter (fun e => e.1 = k)).map Prod.snd = (lookupKey k o).toList := by
  intro o
  induction o with
  | nil => intro _ k; simp [lookupKey]
  | cons e rest ih =>
    intro hnd k
    obtain ⟨k1, v1⟩ := e
    simp only [List.map_cons, List.nodup_cons] at hnd
    obtain ⟨hk1, hrest⟩ := hnd
    by_cases h : k1 = k
    · subst h
      have hfil : rest.filter (fun e => e.1 = k1) = [] := by
        rw [List.filter_eq_nil_iff]
        intro e he
        simp only [decide_eq_true_eq]
        intro hh
        exact hk1 (List.mem_map.mpr ⟨e, he, hh⟩)
      simp [List.filter_cons, lookupKey, hfil]
    · simp [List.filter_cons, lookupKey, h, ih hrest k]

/-- Across well-formed objects, the flattened values at key `k` are the
per-object looked-up values in input order. -/
theorem flat_filter_eq_filterMap : ∀ (objects : List Obj),
    (∀ o ∈ objects, (o.map Prod.fst).Nodup) → ∀ (k : String),
    (objects.flatten.filter (fun e => e.1 = k)).map Prod.snd =
      objects.filterMap (lookupKey k) := by
  intro objects
  induction objects with
  | nil => intro _ k; simp
  | cons o rest ih =>
    intro hnd k
    simp only [List.flatten_cons, List.filter_append, List.map_append]
    rw [filter_map_eq_toList o (hnd o (by simp)) k,
      ih (fun o2 ho2 => hnd o2 (by simp [ho2])) k]
    cases h : lookupKey k o <;> simp [List.filterMap_cons, h]

/-- C8: merging the empty sequence yields the empty object, and in general
the merged object holds key `k` exactly when some input holds it, with value
the sum of the values of `k` across the inputs in input order (so a key held
by exactly one input keeps that value). -/
theorem mergeObjects_spec :
    mergeObjects [] = [] ∧
    ∀ (objects : List Obj), (∀ o ∈ objects, (o.map Prod.fst).Nodup) →
      ∀ (k : String), lookupKey k (mergeObjects objects) = dupKeySum objects k := by
  constructor
  · rfl
  · intro objects hnd k
    rw [mergeObjects, merge_foldl_flatten, lookupKey_foldl_merge]
    rw [flat_filter_eq_filterMap objects hnd k]
    cases h : objects.filterMap (lookupKey k) with
    | nil => simp [optAdd, dupKeySum, h, lookupKey]
    | cons v vs => simp [optAdd, dupKeySum, h, lookupKey]

/-- Witness for C8: the documented example — merging objects with entries
a: 1, b: 2 and b: 3, c: 5 gives b the sum 5, keeps a at 1 and c at 5. -/
theorem mergeObjects_spec_witness :
    (∀ o ∈ [[(("a" : String), (1 : Int)), ("b", 2)], [("b", 3), ("c", 5)]],
      (o.map Prod.fst).Nodup) ∧
    lookupKey "b" (mergeObjects [[("a", 1), ("b", 2)], [("b", 3), ("c", 5)]]) = some 5 ∧
    lookupKey "a" (mergeObjects [[("a", 1), ("b", 2)], [("b", 3), ("c", 5)]]) = some 1 := by
  refine ⟨by decide, ?_, ?_⟩
  · rw [mergeObjects_spec.2 [[("a", 1), ("b", 2)], [("b", 3), ("c", 5)]] (by decide) "b"]
    decide
  · rw [mergeObjects_spec.2 [[("a", 1), ("b", 2)], [("b", 3), ("c", 5)]] (by decide) "a"]
    decide

end ObjectsTasks

namespace ObjectsTasks

/-! ## Claim C10 -/

/-- Step of the search on a 25 bill. -/
theorem changeFeasible_25 (a b : Nat) (rest : List Nat) :
    changeFeasible a b (25 :: rest) = changeFeasible (a + 1) b rest := rfl

/-- Step of the search on a 50 bill. -/
theorem changeFeasible_50 (a b : Nat) (rest : List Nat) :
    changeFeasible a b (50 :: rest) =
      (decide (0 < a) && changeFeasible (a - 1) (b + 1) rest) := rfl

/-- Step of the search on a 100 bill. -/
theorem changeFeasible_100 (a b : Nat) (rest : List Nat) :
    changeFeasible a b (100 :: rest) =
      ((decide (0 < b) && decide (0 < a) && changeFeasible (a - 1) (b - 1) rest)
        || (decide (3 ≤ a) && changeFeasible (a - 3) b rest)) := rfl

/-- Step of the greedy loop on a 25 bill. -/
theorem sellTicketsAux_25 (a b : Nat) (rest : List Nat) :
    sellTicketsAux a b (25 :: rest) = sellTicketsAux (a + 1) b rest := rfl

/-- Step of the greedy loop on a 50 bill. -/
theorem sellTicketsAux_50 (a b : Nat) (rest : List Nat) :
    sellTicketsAux a b (50 :: rest) =
      if 0 < a then sellTicketsAux (a - 1) (b + 1) rest else false := rfl

/-- Step of the greedy loop on a 100 bill. -/
theorem sellTicketsAux_100 (a b : Nat) (rest : List Nat) :
    sellTicketsAux a b (100 :: rest) =
      if 0 < b && 0 < a then sellTicketsAux (a - 1) (b - 1) rest
      else if 2 < a then sellTicketsAux (a - 3) b rest
      else false := rfl

/-- A cashbox with at least as many 25s, and at least as much change capacity
(counting a 50 as worth two 25s), can serve every queue a smaller cashbox
can: a 50 bill is only ever dispensed together with a 25 to make 75, so two
spare 25s can always stand in for a spare 50. -/
theorem changeFeasible_mono : ∀ (q : List Nat) (a b a2 b2 : Nat),
    a2 ≤ a → a2 + 2 * b2 ≤ a + 2 * b →
    changeFeasible a2 b2 q = true → changeFeasible a b q = true := by
  intro q
  induction q with
  | nil => intro a b a2 b2 _ _ _; rfl
  | cons bill rest ih =>
    intro a b a2 b2 h1 h2 hf
    by_cases e1 : bill = 25
    · subst e1
      rw [changeFeasible_25] at hf ⊢
      exact ih (a + 1) b (a2 + 1) b2 (by omega) (by omega) hf
    by_cases e2 : bill = 50
    · subst e2
      rw [changeFeasible_50] at hf ⊢
      simp only [Bool.and_eq_true, decide_eq_true_eq] at hf ⊢
      obtain ⟨ha2, hf2⟩ := hf
      exact ⟨by omega, ih (a - 1) (b + 1) (a2 - 1) (b2 + 1) (by omega) (by omega) hf2⟩
    by_cases e3 : bill = 100
    · subst e3
      rw [changeFeasible_100] at hf ⊢
      simp only [Bool.or_eq_true, Bool.and_eq_true, decide_eq_true_eq] at hf ⊢
      rcases hf with ⟨⟨hb2, ha2⟩, hf2⟩ | ⟨ha2, hf2⟩
      · by_cases hb : 0 < b
        · exact Or.inl ⟨⟨hb, by omega⟩,
            ih (a - 1) (b - 1) (a2 - 1) (b2 - 1) (by omega) (by omega) hf2⟩
        · exact Or.inr ⟨by omega,
            ih (a - 3) b (a2 - 1) (b2 - 1) (by omega) (by omega) hf2⟩
      · exact Or.inr ⟨by omega,
          ih (a - 3) b (a2 - 3) b2 (by omega) (by omega) hf2⟩
    · have hother : changeFeasible a2 b2 (bill :: rest) = false := by
        simp only [changeFeasible]
        rw [if_neg e1, if_neg e2, if_neg e3]
      rw [hother] at hf
      exact absurd hf (by simp)

/-- Completeness of the greedy loop: over valid bills, whenever some way of
giving change exists the greedy loop also succeeds — its preference for
50-plus-25 over three 25s never loses feasibility. -/
theorem sellTicketsAux_of_changeFeasible : ∀ (q : List Nat) (a b : Nat),
    (∀ x ∈ q, x = 25 ∨ x = 50 ∨ x = 100) →
    changeFeasible a b q = true → sellTicketsAux a b q = true := by
  intro q
  induction q with
  | nil => intro a b _ _; rfl
  | cons bill rest ih =>
    intro a b hv hf
    have hv2 : ∀ x ∈ rest, x = 25 ∨ x = 50 ∨ x = 100 := fun x hx => hv x (by simp [hx])
    rcases hv bill (by simp) with e | e | e
    · subst e
      rw [changeFeasible_25] at hf
      rw [sellTicketsAux_25]
      exact ih (a + 1) b hv2 hf
    · subst e
      rw [changeFeasible_50] at hf
      simp only [Bool.and_eq_true, decide_eq_true_eq] at hf
      obtain ⟨ha, hf2⟩ := hf
      rw [sellTicketsAux_50, if_pos ha]
      exact ih (a - 1) (b + 1) hv2 hf2
    · subst e
      rw [changeFeasible_100] at hf
      simp only [Bool.or_eq_true, Bool.and_eq_true, decide_eq_true_eq] at hf
      rw [sellTicketsAux_100]
      by_cases hg : 0 < b ∧ 0 < a
      · rw [if_pos (by simp only [Bool.and_eq_true, decide_eq_true_eq]; exact hg)]
        rcases hf with ⟨⟨_, _⟩, hf2⟩ | ⟨ha3, hf2⟩
        · exact ih (a - 1) (b - 1) hv2 hf2
        · exact ih (a - 1) (b - 1) hv2
            (changeFeasible_mono rest (a - 1) (b - 1) (a - 3) b (by omega) (by omega) hf2)
      · rw [if_neg (by simp only [Bool.and_eq_true, decide_eq_true_eq]; exact hg)]
        rcases hf with ⟨⟨hb2, ha2⟩, _⟩ | ⟨ha3, hf2⟩
        · exact absurd ⟨hb2, ha2⟩ hg
        · rw [if_pos (by omega : 2 < a)]
          exact ih (a - 3) b hv2 hf2

/-- Soundness of the greedy loop: over valid bills, a greedy success is in
particular one way of giving everyone change. -/
theorem changeFeasible_of_sellTicketsAux : ∀ (q : List Nat) (a b : Nat),
    (∀ x ∈ q, x = 25 ∨ x = 50 ∨ x = 100) →
    sellTicketsAux a b q = true → changeFeasible a b q = true := by
  intro q
  induction q with
  | nil => intro a b _ _; rfl
  | cons bill rest ih =>
    intro a b hv hs
    have hv2 : ∀ x ∈ rest, x = 25 ∨ x = 50 ∨ x = 100 := fun x hx => hv x (by simp [hx])
    rcases hv bill (by simp) with e | e | e
    · subst e
      rw [sellTicketsAux_25] at hs
      rw [changeFeasible_25]
      exact ih (a + 1) b hv2 hs
    · subst e
      rw [sellTicketsAux_50] at hs
      rw [changeFeasible_50]
      by_cases ha : 0 < a
      · rw [if_pos ha] at hs
        simp only [Bool.and_eq_true, decide_eq_true_eq]
        exact ⟨ha, ih (a - 1) (b + 1) hv2 hs⟩
      · rw [if_neg ha] at hs
        exact absurd hs (by simp)
    · subst e
      rw [sellTicketsAux_100] at hs
      rw [changeFeasible_100]
      simp only [Bool.or_eq_true, Bool.and_eq_true, decide_eq_true_eq]
      by_cases hg : 0 < b ∧ 0 < a
      · rw [if_pos (by simp only [Bool.and_eq_true, decide_eq_true_eq]; exact hg)] at hs
        exact Or.inl ⟨⟨hg.1, hg.2⟩, ih (a - 1) (b - 1) hv2 hs⟩
      · rw [if_neg (by simp only [Bool.and_eq_true, decide_eq_true_eq]; exact hg)] at hs
        by_cases h3 : 2 < a
        · rw [if_pos h3] at hs
          exact Or.inr ⟨by omega, ih (a - 3) b hv2 hs⟩
        · rw [if_neg h3] at hs
          exact absurd hs (by simp)

/-- C10: over queues of bills drawn from 25, 50, 100, `sellTickets` returns
true exactly when some way exists of giving every customer correct change
from the bills collected so far — the greedy choice for a 100 bill is both
sound and complete. -/
theorem sellTickets_complete_sound :
    ∀ (queue : List Nat), (∀ x ∈ queue, x = 25 ∨ x = 50 ∨ x = 100) →
      (sellTickets queue = true ↔ changeFeasible 0 0 queue = true) := by
  intro q hv
  constructor
  · exact changeFeasible_of_sellTicketsAux q 0 0 hv
  · exact sellTicketsAux_of_changeFeasible q 0 0 hv

/-- Witness for C10 at the queue 25, 25, 50, 100: all bills valid, the
equivalence holds, and both sides are true. -/
theorem sellTickets_complete_sound_witness :
    (∀ x ∈ [25, 25, 50, 100], x = 25 ∨ x = 50 ∨ x = 100) ∧
    (sellTickets [25, 25, 50, 100] = true ↔ changeFeasible 0 0 [25, 25, 50, 100] = true) ∧
    sellTickets [25, 25, 50, 100] = true :=
  ⟨by decide, sellTickets_complete_sound [25, 25, 50, 100] (by decide), by decide⟩

end ObjectsTasks
